import Mathlib

/-
  Verification of the session-database repository.

  The Python source (src/python/session_manager.py, session_client.py,
  utils/session_validator.py) is a session-management layer over Redis.
  We embed it shallowly:

  * `SessionData` mirrors the pydantic model (timestamps are integers, the
    UTC timestamp of the datetime; one clock tick is one second, the unit
    used by `setex`/`ttl` and by `timedelta(seconds=ttl_seconds)`).
  * The Redis store is a `Store` with three components, one per key
    namespace used by the code: the per-session strings
    "session:<session_id>" (component `sessions`, keyed by the session id),
    the per-user sets "user_sessions:<user_id>" (component `userSessions`,
    keyed by the user id) and the single sorted set "session_cleanup"
    (component `cleanup`).  String and set keys carry their absolute expiry
    time; a key is alive at time `now` iff `now` is before its expiry,
    which models Redis's native eviction of expired keys.
  * Serialization (`model_dump_json`) is `encodeSession : SessionData →
    JDoc`; deserialization (`model_validate_json`) is `decodeSession :
    JDoc → Option SessionData`.  Metadata values are the JSON primitives
    (string, number, boolean, null), so a serialized record is a two-level
    JSON object: top-level fields are primitives except `metadata`, which
    is an object of primitives.  `JDoc` is exactly that shape.
  * Each manager operation takes the current time `now` as an argument in
    place of its `datetime.utcnow()` reads, and the generated
    `uuid.uuid4()` session id as an argument `sid`.
  * Operations that deserialize (`get_session`, `invalidate_session`, and
    the loops built on them) return `Except Unit _`: the `.error` case is
    the pydantic exception raised when a stored value fails to parse.
-/

/-- Metadata values: the JSON-representable primitives stored in the
`metadata: Dict[str, Any]` field. -/
inductive MetaValue where
  | mstr (s : String)
  | mnum (n : Int)
  | mbool (b : Bool)
  | mnull
deriving DecidableEq

/-- JSON primitive values. -/
inductive JAtom where
  | jstr (s : String)
  | jnum (n : Int)
  | jbool (b : Bool)
  | jnull
deriving DecidableEq

/-- A JSON value appearing as a field of a serialized session record:
either a primitive, or a flat object of primitives (the metadata map). -/
inductive JValue where
  | atom (a : JAtom)
  | obj (fields : List (String × JAtom))
deriving DecidableEq

/-- A serialized session record: a JSON object, as produced by
`model_dump_json`. -/
def JDoc : Type := List (String × JValue)

instance : DecidableEq JDoc := by
  unfold JDoc
  infer_instance

/-- The pydantic model `SessionData` (session_manager.py lines 17-26).
`created_at`, `expires_at`, `last_activity` are UTC timestamps in seconds. -/
structure SessionData where
  user_id : String
  session_id : String
  created_at : Int
  expires_at : Int
  is_active : Bool
  metadata : List (String × MetaValue)
  last_activity : Int
deriving DecidableEq

def encodeMeta : MetaValue → JAtom
  | .mstr s => .jstr s
  | .mnum n => .jnum n
  | .mbool b => .jbool b
  | .mnull => .jnull

def decodeMeta : JAtom → MetaValue
  | .jstr s => .mstr s
  | .jnum n => .mnum n
  | .jbool b => .mbool b
  | .jnull => .mnull

/-- Field lookup in a JSON object. -/
def jlookup : List (String × JValue) → String → Option JValue
  | [], _ => none
  | (k, v) :: t, k' => if k = k' then some v else jlookup t k'

/-- `session_data.model_dump_json()`: serialize a record to JSON. -/
def encodeSession (d : SessionData) : JDoc :=
  [ ("user_id", .atom (.jstr d.user_id))
  , ("session_id", .atom (.jstr d.session_id))
  , ("created_at", .atom (.jnum d.created_at))
  , ("expires_at", .atom (.jnum d.expires_at))
  , ("is_active", .atom (.jbool d.is_active))
  , ("metadata", .obj (d.metadata.map (fun p => (p.1, encodeMeta p.2))))
  , ("last_activity", .atom (.jnum d.last_activity)) ]

/-- `SessionData.model_validate_json`: parse a JSON document back into a
record, failing (`none`) if a field is missing or of the wrong shape. -/
def decodeSession (j : JDoc) : Option SessionData :=
  match jlookup j "user_id", jlookup j "session_id",
        jlookup j "created_at", jlookup j "expires_at",
        jlookup j "is_active", jlookup j "metadata",
        jlookup j "last_activity" with
  | some (.atom (.jstr uid)), some (.atom (.jstr sid)),
    some (.atom (.jnum ca)), some (.atom (.jnum ea)),
    some (.atom (.jbool ia)), some (.obj md),
    some (.atom (.jnum la)) =>
    some { user_id := uid, session_id := sid, created_at := ca,
           expires_at := ea, is_active := ia,
           metadata := md.map (fun p => (p.1, decodeMeta p.2)),
           last_activity := la }
  | _, _, _, _, _, _, _ => none

theorem decodeMeta_encodeMeta (v : MetaValue) : decodeMeta (encodeMeta v) = v := by
  cases v <;> rfl

/-- Round-trip: deserializing a serialized record recovers it exactly. -/
theorem decode_encode (d : SessionData) : decodeSession (encodeSession d) = some d := by
  simp [encodeSession, decodeSession, jlookup, Function.comp_def, decodeMeta_encodeMeta]

/-! ### Association lists with unique string keys, modelling Redis keyspaces -/

def aget {α : Type} : List (String × α) → String → Option α
  | [], _ => none
  | (k, v) :: t, k' => if k = k' then some v else aget t k'

def aset {α : Type} : List (String × α) → String → α → List (String × α)
  | [], k, v => [(k, v)]
  | (k', v') :: t, k, v =>
    if k' = k then (k, v) :: t else (k', v') :: aset t k v

def adel {α : Type} : List (String × α) → String → List (String × α)
  | [], _ => []
  | (k', v) :: t, k => if k' = k then adel t k else (k', v) :: adel t k

theorem aget_aset_self {α : Type} (l : List (String × α)) (k : String) (v : α) :
    aget (aset l k v) k = some v := by
  induction l with
  | nil => simp [aset, aget]
  | cons p t ih =>
    by_cases h : p.1 = k <;> simp [aset, aget, h, ih]

theorem aget_aset_ne {α : Type} (l : List (String × α)) (k k' : String) (v : α)
    (h : k ≠ k') : aget (aset l k v) k' = aget l k' := by
  induction l with
  | nil => simp [aset, aget, h]
  | cons p t ih =>
    by_cases hp : p.1 = k
    · simp [aset, aget, hp, h]
    · simp only [aset, if_neg hp]
      by_cases hp' : p.1 = k' <;> simp [aget, hp', ih]

theorem aget_adel_self {α : Type} (l : List (String × α)) (k : String) :
    aget (adel l k) k = none := by
  induction l with
  | nil => simp [adel, aget]
  | cons p t ih =>
    by_cases h : p.1 = k <;> simp [adel, aget, h, ih]

theorem aget_adel_ne {α : Type} (l : List (String × α)) (k k' : String)
    (h : k ≠ k') : aget (adel l k) k' = aget l k' := by
  induction l with
  | nil => simp [adel, aget]
  | cons p t ih =>
    by_cases hp : p.1 = k
    · simp [adel, aget, hp, h, Ne.symm h, ih]
    · by_cases hp' : p.1 = k' <;> simp [adel, aget, hp, hp', Ne.symm h, ih]

/-! ### The Redis store -/

/-- The store state.  `sessions` holds, per session id, the serialized
record and the absolute expiry time of the "session:<id>" string key.
`userSessions` holds, per user id, the members of the "user_sessions:<id>"
set and that key's expiry (`none` = no expiry set).  `cleanup` is the
single "session_cleanup" sorted set: member ↦ score. -/
structure Store where
  sessions : List (String × JDoc × Int)
  userSessions : List (String × List String × Option Int)
  cleanup : List (String × Int)
deriving DecidableEq

def Store.empty : Store := ⟨[], [], []⟩

/-- Is a set key with expiry `exp` alive at time `now`? -/
def aliveSet (exp : Option Int) (now : Int) : Bool :=
  match exp with
  | none => true
  | some e => decide (now < e)

/-- `redis.get("session:" + sid)`: `none` both for a never-written key and
for one whose expiry has passed (native Redis eviction). -/
def rGet (st : Store) (now : Int) (sid : String) : Option JDoc :=
  match aget st.sessions sid with
  | some (j, exp) => if now < exp then some j else none
  | none => none

/-- `redis.setex("session:" + sid, ttl, j)`: write with absolute expiry
`now + ttl`. -/
def rSetex (st : Store) (now : Int) (sid : String) (ttl : Int) (j : JDoc) : Store :=
  { st with sessions := aset st.sessions sid (j, now + ttl) }

/-- `redis.ttl("session:" + sid)`: remaining time to live; -2 when the key
is absent or already expired. -/
def rTtl (st : Store) (now : Int) (sid : String) : Int :=
  match aget st.sessions sid with
  | some (_, exp) => if now < exp then exp - now else -2
  | none => -2

/-- `redis.delete("session:" + sid)`. -/
def rDel (st : Store) (sid : String) : Store :=
  { st with sessions := adel st.sessions sid }

/-- `redis.smembers("user_sessions:" + uid)`: an expired set reads as
absent. -/
def rSmembers (st : Store) (now : Int) (uid : String) : List String :=
  match aget st.userSessions uid with
  | some (ms, exp) => if aliveSet exp now then ms else []
  | none => []

/-- `redis.sadd("user_sessions:" + uid, sid)`: adding to an absent or
expired key creates a fresh persistent set. -/
def rSadd (st : Store) (now : Int) (uid sid : String) : Store :=
  match aget st.userSessions uid with
  | some (ms, exp) =>
    if aliveSet exp now then
      let ms' := if sid ∈ ms then ms else ms ++ [sid]
      { st with userSessions := aset st.userSessions uid (ms', exp) }
    else
      { st with userSessions := aset st.userSessions uid ([sid], none) }
  | none => { st with userSessions := aset st.userSessions uid ([sid], none) }

/-- `redis.expire("user_sessions:" + uid, ttl)`: set the expiry of a
live key; no effect on an absent or already-expired key. -/
def rExpireSet (st : Store) (now : Int) (uid : String) (ttl : Int) : Store :=
  match aget st.userSessions uid with
  | some (ms, exp) =>
    if aliveSet exp now then
      { st with userSessions := aset st.userSessions uid (ms, some (now + ttl)) }
    else st
  | none => st

/-- `redis.srem("user_sessions:" + uid, sid)`: remove a member from a live
set; no effect on an absent or expired key. -/
def rSrem (st : Store) (now : Int) (uid sid : String) : Store :=
  match aget st.userSessions uid with
  | some (ms, exp) =>
    if aliveSet exp now then
      let ms' := ms.filter (fun x => decide (x ≠ sid))
      { st with userSessions := aset st.userSessions uid (ms', exp) }
    else st
  | none => st

/-- `redis.zadd("session_cleanup", score, sid)` (update or insert). -/
def zAdd (st : Store) (sid : String) (score : Int) : Store :=
  { st with cleanup := aset st.cleanup sid score }

/-- `redis.zrem("session_cleanup", sid)`. -/
def zRem (st : Store) (sid : String) : Store :=
  { st with cleanup := adel st.cleanup sid }

/-- `redis.zcard("session_cleanup")`. -/
def zCard (st : Store) : Nat := st.cleanup.length

/-- `redis.zcount("session_cleanup", lo, "+inf")`: members with score
`≥ lo` (ZCOUNT bounds are inclusive). -/
def zCountFrom (st : Store) (lo : Int) : Nat :=
  (st.cleanup.filter (fun p => decide (lo ≤ p.2))).length

/-- `redis.zrangebyscore("session_cleanup", lo, hi)`: members with
`lo ≤ score ≤ hi` (both bounds inclusive). -/
def zRangeUpTo (st : Store) (lo hi : Int) : List String :=
  (st.cleanup.filter (fun p => decide (lo ≤ p.2) && decide (p.2 ≤ hi))).map Prod.fst

/-! ### SessionManager (session_manager.py) -/

/-- `SessionManager.create_session(user_id, ttl_seconds, metadata)`
(lines 38-67).  `now` stands for the `datetime.utcnow()` reads of the
call and `sid` for the generated `uuid.uuid4()` id.  No validation is
performed: the record is built, then three store commands run (`setex`
on the session key, `sadd` + `expire` on the user's set, `zadd` on the
cleanup sorted set with score `expires_at`). -/
def create_session (st : Store) (now : Int) (sid uid : String) (ttl : Int)
    (md : List (String × MetaValue)) : SessionData × Store :=
  let data : SessionData :=
    { user_id := uid, session_id := sid, created_at := now,
      expires_at := now + ttl, is_active := true, metadata := md,
      last_activity := now }
  let st1 := rSetex st now sid ttl (encodeSession data)
  let st2 := rExpireSet (rSadd st1 now uid sid) now uid ttl
  let st3 := zAdd st2 sid data.expires_at
  (data, st3)

/-- `SessionManager.get_session(session_id)` (lines 69-90): read the
session key; on a miss return `none`; on a hit parse the record, set
`last_activity := now` and rewrite the key with `setex` under the
key's reported remaining TTL. -/
def get_session (st : Store) (now : Int) (sid : String) :
    Except Unit (Option SessionData × Store) :=
  match rGet st now sid with
  | none => .ok (none, st)
  | some j =>
    match decodeSession j with
    | none => .error ()
    | some d =>
      let d2 := { d with last_activity := now }
      .ok (some d2, rSetex st now sid (rTtl st now sid) (encodeSession d2))

/-- `SessionManager.invalidate_session(session_id)` (lines 92-113): read
the record to discover its owner; on a miss return `false`; otherwise
delete the session key, remove the id from the cleanup sorted set and
from the owner's set, and return `true`. -/
def invalidate_session (st : Store) (now : Int) (sid : String) :
    Except Unit (Bool × Store) :=
  match rGet st now sid with
  | none => .ok (false, st)
  | some j =>
    match decodeSession j with
    | none => .error ()
    | some d => .ok (true, rSrem (zRem (rDel st sid) sid) now d.user_id sid)

/-- The loop body of `cleanup_expired_sessions`: invalidate each id,
counting the calls that returned `true`. -/
def cleanupGo (now : Int) : List String → Nat → Store → Except Unit (Nat × Store)
  | [], acc, st => .ok (acc, st)
  | sid :: rest, acc, st =>
    match invalidate_session st now sid with
    | .error e => .error e
    | .ok (true, st') => cleanupGo now rest (acc + 1) st'
    | .ok (false, st') => cleanupGo now rest acc st'

/-- `SessionManager.cleanup_expired_sessions()` (lines 149-163): fetch
the members of the cleanup sorted set with score in `[0, now]`
(`zrangebyscore(key, 0, current_time)`), invalidate each, and return the
number successfully invalidated. -/
def cleanup_expired_sessions (st : Store) (now : Int) : Except Unit (Nat × Store) :=
  cleanupGo now (zRangeUpTo st 0 now) 0 st

/-- The loop body of `get_user_sessions`: resolve each id via
`get_session` and keep the hits whose `is_active` is true. -/
def userSessionsGo (now : Int) :
    List String → List SessionData → Store → Except Unit (List SessionData × Store)
  | [], acc, st => .ok (acc.reverse, st)
  | sid :: rest, acc, st =>
    match get_session st now sid with
    | .error e => .error e
    | .ok (some d, st') =>
      if d.is_active then userSessionsGo now rest (d :: acc) st'
      else userSessionsGo now rest acc st'
    | .ok (none, st') => userSessionsGo now rest acc st'

/-- `SessionManager.get_user_sessions(user_id)` (lines 135-147). -/
def get_user_sessions (st : Store) (now : Int) (uid : String) :
    Except Unit (List SessionData × Store) :=
  userSessionsGo now (rSmembers st now uid) [] st

/-- `SessionManager.invalidate_user_sessions(user_id)` (lines 115-133):
enumerate the user's set; if empty return 0; otherwise delete each
session key and its cleanup entry, delete the user's set, and return
the number of ids. -/
def invalidate_user_sessions (st : Store) (now : Int) (uid : String) : Nat × Store :=
  let ids := rSmembers st now uid
  if ids.isEmpty then (0, st)
  else
    let st1 := ids.foldl (fun s sid => zRem (rDel s sid) sid) st
    (ids.length, { st1 with userSessions := adel st1.userSessions uid })

/-- The dictionary returned by `get_session_stats`. -/
structure SessionStats where
  total_sessions : Nat
  active_sessions : Nat
  expired_sessions : Nat
deriving DecidableEq

/-- `SessionManager.get_session_stats()` (lines 171-186): `zcard` of the
cleanup sorted set, `zcount(key, current_time, "+inf")`, and their
difference. -/
def get_session_stats (st : Store) (now : Int) : SessionStats :=
  { total_sessions := zCard st
  , active_sessions := zCountFrom st now
  , expired_sessions := zCard st - zCountFrom st now }

/-! ### SessionClient facade (session_client.py) -/

/-- Outcome of `SessionClient.get_session_stats()`: either the manager's
stats dictionary, or the dictionary `\x7b"error": str(e)\x7d` built in the
`except redis.RedisError` handler. -/
inductive StatsOutcome where
  | ok (stats : SessionStats)
  | errorDict (msg : String)
deriving DecidableEq

/-- `SessionClient.get_session_stats()` (session_client.py lines 100-105):
run the manager call; a `redis.RedisError` raised by it (modelled as the
`.error` case of the argument) is caught and turned into an error
dictionary; it is not re-raised. -/
def client_get_session_stats (call : Except String SessionStats) : StatsOutcome :=
  match call with
  | .ok s => .ok s
  | .error e => .errorDict e

/-! ### Validator (utils/session_validator.py) -/

/-- Characters matched by the class `[a-zA-Z0-9_-]`. -/
def isAllowedChar (c : Char) : Bool :=
  decide (('a' ≤ c ∧ c ≤ 'z') ∨ ('A' ≤ c ∧ c ≤ 'Z') ∨ ('0' ≤ c ∧ c ≤ '9') ∨
          c = '_' ∨ c = '-')

/-- Python `re.match(r"^[a-zA-Z0-9_-]+$", s)` as a Boolean.  Per the `re`
module, `$` matches at the end of the string or just before a newline at
the end of the string, so the pattern also accepts a string consisting of
one or more class characters followed by a single trailing newline. -/
def reMatchUserId (s : String) : Bool :=
  (!s.data.isEmpty && s.data.all isAllowedChar) ||
    (s.data.getLast? == some '\n' && !s.data.dropLast.isEmpty &&
      s.data.dropLast.all isAllowedChar)

/-- `validate_user_id(user_id)` (session_validator.py lines 111-123):
reject the empty string and strings longer than 255 characters, then
test the regular expression. -/
def validate_user_id (user_id : String) : Bool :=
  if user_id.length = 0 || decide (user_id.length > 255) then false
  else reMatchUserId user_id

/-! ### Store well-formedness -/

/-- Keys of each Redis keyspace are unique, and every stored session
value parses — both hold for every store built by the manager's own
writes, since Redis keys are unique and the manager only ever stores
`model_dump_json` output. -/
def WFStore (st : Store) : Prop :=
  (st.sessions.map Prod.fst).Nodup ∧
  (st.cleanup.map Prod.fst).Nodup ∧
  ∀ p ∈ st.sessions, (decodeSession p.2.1).isSome = true

instance (st : Store) : Decidable (WFStore st) := by
  unfold WFStore
  infer_instance

/-! ### Frame lemmas: each primitive touches only its own keyspace -/

@[simp] theorem rSetex_userSessions (st : Store) (now : Int) (sid : String)
    (ttl : Int) (j : JDoc) : (rSetex st now sid ttl j).userSessions = st.userSessions := rfl

@[simp] theorem rSetex_cleanup (st : Store) (now : Int) (sid : String)
    (ttl : Int) (j : JDoc) : (rSetex st now sid ttl j).cleanup = st.cleanup := rfl

@[simp] theorem rDel_userSessions (st : Store) (sid : String) :
    (rDel st sid).userSessions = st.userSessions := rfl

@[simp] theorem rDel_cleanup (st : Store) (sid : String) :
    (rDel st sid).cleanup = st.cleanup := rfl

@[simp] theorem rSadd_sessions (st : Store) (now : Int) (uid sid : String) :
    (rSadd st now uid sid).sessions = st.sessions := by
  unfold rSadd
  split <;> (try split) <;> rfl

@[simp] theorem rSadd_cleanup (st : Store) (now : Int) (uid sid : String) :
    (rSadd st now uid sid).cleanup = st.cleanup := by
  unfold rSadd
  split <;> (try split) <;> rfl

@[simp] theorem rExpireSet_sessions (st : Store) (now : Int) (uid : String) (ttl : Int) :
    (rExpireSet st now uid ttl).sessions = st.sessions := by
  unfold rExpireSet
  split <;> (try split) <;> rfl

@[simp] theorem rExpireSet_cleanup (st : Store) (now : Int) (uid : String) (ttl : Int) :
    (rExpireSet st now uid ttl).cleanup = st.cleanup := by
  unfold rExpireSet
  split <;> (try split) <;> rfl

@[simp] theorem rSrem_sessions (st : Store) (now : Int) (uid sid : String) :
    (rSrem st now uid sid).sessions = st.sessions := by
  unfold rSrem
  split <;> (try split) <;> rfl

@[simp] theorem rSrem_cleanup (st : Store) (now : Int) (uid sid : String) :
    (rSrem st now uid sid).cleanup = st.cleanup := by
  unfold rSrem
  split <;> (try split) <;> rfl

@[simp] theorem zAdd_sessions (st : Store) (sid : String) (score : Int) :
    (zAdd st sid score).sessions = st.sessions := rfl

@[simp] theorem zAdd_userSessions (st : Store) (sid : String) (score : Int) :
    (zAdd st sid score).userSessions = st.userSessions := rfl

@[simp] theorem zRem_sessions (st : Store) (sid : String) :
    (zRem st sid).sessions = st.sessions := rfl

@[simp] theorem zRem_userSessions (st : Store) (sid : String) :
    (zRem st sid).userSessions = st.userSessions := rfl

@[simp] theorem rSetex_sessions (st : Store) (now : Int) (sid : String)
    (ttl : Int) (j : JDoc) :
    (rSetex st now sid ttl j).sessions = aset st.sessions sid (j, now + ttl) := rfl

@[simp] theorem rDel_sessions (st : Store) (sid : String) :
    (rDel st sid).sessions = adel st.sessions sid := rfl

@[simp] theorem zAdd_cleanup (st : Store) (sid : String) (score : Int) :
    (zAdd st sid score).cleanup = aset st.cleanup sid score := rfl

@[simp] theorem zRem_cleanup (st : Store) (sid : String) :
    (zRem st sid).cleanup = adel st.cleanup sid := rfl

@[simp] theorem aliveSet_none (now : Int) : aliveSet none now = true := rfl

/-- After `sadd` then `expire` at a live moment, the user's set is present,
contains the added member, and has expiry `now + ttl`. -/
theorem sadd_expire_user_set (st : Store) (now : Int) (uid sid : String) (ttl : Int) :
    ∃ ms, aget (rExpireSet (rSadd st now uid sid) now uid ttl).userSessions uid =
        some (ms, some (now + ttl)) ∧ sid ∈ ms := by
  rcases h : aget st.userSessions uid with _ | ⟨ms, exp⟩
  · refine ⟨[sid], ?_, by simp⟩
    simp [rSadd, rExpireSet, h, aget_aset_self]
  · by_cases ha : aliveSet exp now
    · by_cases hm : sid ∈ ms
      · refine ⟨ms, ?_, hm⟩
        simp [rSadd, rExpireSet, h, ha, hm, aget_aset_self]
      · refine ⟨ms ++ [sid], ?_, by simp⟩
        simp [rSadd, rExpireSet, h, ha, hm, aget_aset_self]
    · refine ⟨[sid], ?_, by simp⟩
      simp [rSadd, rExpireSet, h, ha, aget_aset_self]

/-! ### Claim proofs -/

/-- What `create_session` does, for every input (no validation occurs in
it): the returned record, the session key write with expiry `ttl`, the
user-set membership with refreshed expiry `ttl`, and the cleanup index
entry scored with `expires_at`. -/
theorem create_writes_all (st : Store) (now : Int) (sid uid : String)
    (ttl : Int) (md : List (String × MetaValue)) :
    (create_session st now sid uid ttl md).1.expires_at -
      (create_session st now sid uid ttl md).1.created_at = ttl ∧
    (create_session st now sid uid ttl md).1.is_active = true ∧
    aget (create_session st now sid uid ttl md).2.sessions sid =
      some (encodeSession (create_session st now sid uid ttl md).1, now + ttl) ∧
    (∃ ms, aget (create_session st now sid uid ttl md).2.userSessions uid =
      some (ms, some (now + ttl)) ∧ sid ∈ ms) ∧
    aget (create_session st now sid uid ttl md).2.cleanup sid =
      some (create_session st now sid uid ttl md).1.expires_at := by
  refine ⟨?_, ?_, ?_, ?_, ?_⟩
  · simp [create_session]
  · simp [create_session]
  · simp [create_session, aget_aset_self]
  · simp only [create_session, zAdd_userSessions]
    exact sadd_expire_user_set _ now uid sid ttl
  · simp [create_session, aget_aset_self]

/-- C7: for every valid userId, ttlSeconds > 0 and metadata mapping,
`create_session` returns a record with `expires_at - created_at = ttl` and
`is_active = true`, writes the per-session entry with store expiry
`ttl` (absolute expiry `now + ttl`), adds the session id to the per-user
set while refreshing that set's expiry to `ttl`, and records
`(session_id, expires_at)` in the global cleanup index. -/
theorem C7_create_session_contract (st : Store) (now : Int) (sid uid : String)
    (ttl : Int) (md : List (String × MetaValue))
    (hvalid : validate_user_id uid = true) (httl : 0 < ttl) :
    (create_session st now sid uid ttl md).1.expires_at -
      (create_session st now sid uid ttl md).1.created_at = ttl ∧
    (create_session st now sid uid ttl md).1.is_active = true ∧
    aget (create_session st now sid uid ttl md).2.sessions sid =
      some (encodeSession (create_session st now sid uid ttl md).1, now + ttl) ∧
    (∃ ms, aget (create_session st now sid uid ttl md).2.userSessions uid =
      some (ms, some (now + ttl)) ∧ sid ∈ ms) ∧
    aget (create_session st now sid uid ttl md).2.cleanup sid =
      some (create_session st now sid uid ttl md).1.expires_at :=
  create_writes_all st now sid uid ttl md

/-- Witness for C7 at a concrete input. -/
theorem C7_create_session_contract_witness :
    (validate_user_id "user_1" = true ∧ (0 : Int) < 60) ∧
    aget (create_session Store.empty 0 "s1" "user_1" 60 []).2.cleanup "s1" =
      some (create_session Store.empty 0 "s1" "user_1" 60 []).1.expires_at :=
  ⟨⟨by decide, by decide⟩,
    (C7_create_session_contract Store.empty 0 "s1" "user_1" 60 []
      (by decide) (by decide)).2.2.2.2⟩

/-- C2 counterexample: `create_session` with a userId the validator
rejects does not raise and does mutate the store: the per-session entry,
the per-user set and the global expiry index all change. -/
theorem C2_create_validation_counterexample :
    validate_user_id "bad user" = false ∧
    aget (create_session Store.empty 0 "s1" "bad user" 60 []).2.sessions "s1" ≠ none ∧
    aget (create_session Store.empty 0 "s1" "bad user" 60 []).2.userSessions "bad user" ≠ none ∧
    aget (create_session Store.empty 0 "s1" "bad user" 60 []).2.cleanup "s1" ≠ none := by
  decide

/-- C2 (amended): `create_session` performs no validation at all — even
for a userId the validator rejects, the call completes and issues all
three store writes.  Validation happens only in the standalone validator
functions, which issue no store commands (they are pure predicates over
their input in this model). -/
theorem C2_create_does_not_validate (st : Store) (now : Int) (sid uid : String)
    (ttl : Int) (md : List (String × MetaValue))
    (hinvalid : validate_user_id uid = false) :
    aget (create_session st now sid uid ttl md).2.sessions sid =
      some (encodeSession (create_session st now sid uid ttl md).1, now + ttl) ∧
    (∃ ms, aget (create_session st now sid uid ttl md).2.userSessions uid =
      some (ms, some (now + ttl)) ∧ sid ∈ ms) ∧
    aget (create_session st now sid uid ttl md).2.cleanup sid =
      some (create_session st now sid uid ttl md).1.expires_at :=
  (create_writes_all st now sid uid ttl md).2.2

/-- Witness for C2's amended theorem at a concrete input. -/
theorem C2_create_does_not_validate_witness :
    validate_user_id "bad user" = false ∧
    aget (create_session Store.empty 0 "s1" "bad user" 60 []).2.cleanup "s1" =
      some (create_session Store.empty 0 "s1" "bad user" 60 []).1.expires_at :=
  ⟨by decide,
    (C2_create_does_not_validate Store.empty 0 "s1" "bad user" 60 []
      (by decide)).2.2⟩

/-- C9: serializing a session record and deserializing the result
reproduces a record with all field values identical to the original,
timestamps included (the encoder stores the full timestamp values; no
precision is dropped). -/
theorem C9_serialization_roundtrip (d : SessionData) :
    decodeSession (encodeSession d) = some d :=
  decode_encode d

set_option maxRecDepth 4096 in
/-- C8: evaluation of `validate_user_id` at the divergence point and at
the claim's example points.  The empty id, an id with a space, an id with
a slash, and a 256-character id are rejected; a 255-character id of
allowed characters is accepted — all as the claim says.  But "ab\n",
which contains a newline (a character outside `[a-zA-Z0-9_-]`), is
accepted, because Python's `$` also matches just before a trailing
newline: the code contradicts its own error message ("User ID must
contain only alphanumeric characters, hyphens, and underscores"). -/
theorem C8_validate_user_id_eval :
    validate_user_id "ab\n" = true ∧
    ('\n' ∈ "ab\n".data ∧ isAllowedChar '\n' = false) ∧
    validate_user_id "" = false ∧
    validate_user_id "user 1" = false ∧
    validate_user_id "user/1" = false ∧
    validate_user_id (String.mk (List.replicate 255 'a')) = true ∧
    validate_user_id (String.mk (List.replicate 256 'a')) = false := by
  decide

/-- C6 counterexample: on a store failure the client facade's stats call
returns the error dictionary built in its `except` handler, not zero
counts. -/
theorem C6_stats_zero_counts_counterexample :
    client_get_session_stats (Except.error "connection refused") =
      StatsOutcome.errorDict "connection refused" ∧
    client_get_session_stats (Except.error "connection refused") ≠
      StatsOutcome.ok ⟨0, 0, 0⟩ := by
  decide

/-- C6 (amended): for every store failure raised while computing
statistics, the facade's stats call catches it and returns an error
dictionary — it neither propagates the failure nor returns counts — and
on success it passes the manager's counts through unchanged. -/
theorem C6_stats_degrade_to_error_dict (e : String) (s : SessionStats) :
    client_get_session_stats (Except.error e) = StatsOutcome.errorDict e ∧
    (∀ stats, client_get_session_stats (Except.error e) ≠ StatsOutcome.ok stats) ∧
    client_get_session_stats (Except.ok s) = StatsOutcome.ok s := by
  refine ⟨rfl, ?_, rfl⟩
  intro stats h
  exact StatsOutcome.noConfusion h

/-! ### More association-list lemmas -/

theorem aget_mem {α : Type} (l : List (String × α)) (k : String) (v : α)
    (h : aget l k = some v) : (k, v) ∈ l := by
  induction l with
  | nil => simp [aget] at h
  | cons p t ih =>
    by_cases hp : p.1 = k
    · simp only [aget, if_pos hp] at h
      injection h with h2
      subst h2
      subst hp
      rw [Prod.mk.eta]
      exact List.mem_cons_self p t
    · simp only [aget, if_neg hp] at h
      exact List.mem_cons_of_mem _ (ih h)

theorem mem_aget {α : Type} (l : List (String × α)) (k : String) (v : α)
    (hnd : (l.map Prod.fst).Nodup) (h : (k, v) ∈ l) : aget l k = some v := by
  induction l with
  | nil => simp at h
  | cons p t ih =>
    simp only [List.map_cons, List.nodup_cons] at hnd
    rcases List.mem_cons.mp h with heq | hmem
    · subst heq
      simp [aget]
    · have hk : p.1 ≠ k := by
        intro hc
        exact hnd.1 (hc ▸ List.mem_map_of_mem Prod.fst hmem)
      simp [aget, hk, ih hnd.2 hmem]

theorem mem_aset {α : Type} (l : List (String × α)) (k : String) (v : α)
    (p : String × α) (h : p ∈ aset l k v) : p = (k, v) ∨ p ∈ l := by
  induction l with
  | nil => simpa [aset] using h
  | cons q t ih =>
    by_cases hq : q.1 = k
    · simp only [aset, if_pos hq] at h
      rcases List.mem_cons.mp h with heq | hmem
      · exact Or.inl heq
      · exact Or.inr (List.mem_cons_of_mem _ hmem)
    · simp only [aset, if_neg hq] at h
      rcases List.mem_cons.mp h with heq | hmem
      · exact Or.inr (heq ▸ List.mem_cons_self q t)
      · rcases ih hmem with h1 | h2
        · exact Or.inl h1
        · exact Or.inr (List.mem_cons_of_mem _ h2)

theorem mem_adel {α : Type} (l : List (String × α)) (k : String)
    (p : String × α) (h : p ∈ adel l k) : p ∈ l := by
  induction l with
  | nil => simp [adel] at h
  | cons q t ih =>
    by_cases hq : q.1 = k
    · simp only [adel, if_pos hq] at h
      exact List.mem_cons_of_mem _ (ih h)
    · simp only [adel, if_neg hq] at h
      rcases List.mem_cons.mp h with heq | hmem
      · exact heq ▸ List.mem_cons_self q t
      · exact List.mem_cons_of_mem _ (ih hmem)

/-! ### Concrete fixtures used by witnesses -/

def witRecord : SessionData :=
  { user_id := "u1", session_id := "s1", created_at := 0, expires_at := 60,
    is_active := true, metadata := [], last_activity := 0 }

def witStore : Store :=
  { sessions := [("s1", (encodeSession witRecord, 60))]
  , userSessions := [("u1", (["s1"], some 60))]
  , cleanup := [("s1", 60)] }

/-- C3: on a hit, `get_session` returns the stored record with
`last_activity` set to `now` and rewrites the entry under the
store-reported remaining TTL of that same key, so the key's absolute
expiry is unchanged — a read neither extends nor shortens the actual
expiry — and no other session entry, no user set and no index entry is
touched. -/
theorem C3_get_refreshes_under_same_expiry (st : Store) (now : Int)
    (sid : String) (j : JDoc) (exp : Int) (d : SessionData)
    (hget : aget st.sessions sid = some (j, exp)) (halive : now < exp)
    (hdec : decodeSession j = some d) :
    ∃ st', get_session st now sid =
        .ok (some { d with last_activity := now }, st') ∧
      aget st'.sessions sid =
        some (encodeSession { d with last_activity := now }, exp) ∧
      (∀ sid2, sid2 ≠ sid → aget st'.sessions sid2 = aget st.sessions sid2) ∧
      st'.userSessions = st.userSessions ∧ st'.cleanup = st.cleanup := by
  have hr : rGet st now sid = some j := by
    simp [rGet, hget, halive]
  have ht : rTtl st now sid = exp - now := by
    simp [rTtl, hget, halive]
  have hexp : now + (exp - now) = exp := by omega
  refine ⟨rSetex st now sid (rTtl st now sid)
      (encodeSession { d with last_activity := now }), ?_, ?_, ?_, rfl, rfl⟩
  · simp [get_session, hr, hdec]
  · simp [rSetex, ht, hexp, aget_aset_self]
  · intro sid2 hne
    simp [rSetex, aget_aset_ne _ _ _ _ (Ne.symm hne)]

/-- Witness for C3 at a concrete store. -/
theorem C3_get_refreshes_witness :
    (aget witStore.sessions "s1" = some (encodeSession witRecord, 60) ∧
      (0 : Int) < 60 ∧
      decodeSession (encodeSession witRecord) = some witRecord) ∧
    (∃ st', get_session witStore 0 "s1" =
        .ok (some { witRecord with last_activity := 0 }, st') ∧
      aget st'.sessions "s1" =
        some (encodeSession { witRecord with last_activity := 0 }, 60) ∧
      (∀ sid2, sid2 ≠ "s1" → aget st'.sessions sid2 = aget witStore.sessions sid2) ∧
      st'.userSessions = witStore.userSessions ∧ st'.cleanup = witStore.cleanup) :=
  ⟨⟨by decide, by decide, by decide⟩,
    C3_get_refreshes_under_same_expiry witStore 0 "s1" (encodeSession witRecord)
      60 witRecord (by decide) (by decide) (by decide)⟩

/-- C5: `invalidate_session` returns false (leaving the store unchanged)
when the per-session entry is absent or natively expired; on a live entry
it deletes the per-session entry, removes the id from the global cleanup
index and from the owning user's live session set, and returns true;
afterwards `get_session` returns absent and a second `invalidate_session`
returns false. -/
theorem C5_invalidate_contract (st : Store) (now : Int) (sid : String) :
    (rGet st now sid = none → invalidate_session st now sid = .ok (false, st)) ∧
    (∀ j exp d, aget st.sessions sid = some (j, exp) → now < exp →
      decodeSession j = some d →
      ∃ st', invalidate_session st now sid = .ok (true, st') ∧
        st'.sessions = adel st.sessions sid ∧
        st'.cleanup = adel st.cleanup sid ∧
        rGet st' now sid = none ∧
        (∀ ms exp2, aget st'.userSessions d.user_id = some (ms, exp2) →
          aliveSet exp2 now = true → sid ∉ ms) ∧
        get_session st' now sid = .ok (none, st') ∧
        invalidate_session st' now sid = .ok (false, st')) := by
  constructor
  · intro h
    simp [invalidate_session, h]
  · intro j exp d hget halive hdec
    have hr : rGet st now sid = some j := by
      simp [rGet, hget, halive]
    refine ⟨rSrem (zRem (rDel st sid) sid) now d.user_id sid, ?_, ?_, ?_, ?_, ?_, ?_, ?_⟩
    · simp [invalidate_session, hr, hdec]
    · simp
    · simp
    · simp [rGet, aget_adel_self]
    · rcases hus : aget st.userSessions d.user_id with _ | ⟨ms0, exp0⟩
      · intro ms exp2 hm _
        simp [rSrem, hus] at hm
      · by_cases ha : aliveSet exp0 now
        · intro ms exp2 hm _
          simp only [rSrem, rDel_userSessions, zRem_userSessions, hus, ha,
            if_true, aget_aset_self] at hm
          injection hm with hm2
          injection hm2 with hms hexp2
          subst hms
          simp [List.mem_filter]
        · intro ms exp2 hm halive2
          simp [rSrem, hus, ha] at hm
          obtain ⟨hms, hexp2⟩ := hm
          rw [hexp2] at ha
          exact absurd halive2 ha
    · have hr' : rGet (rSrem (zRem (rDel st sid) sid) now d.user_id sid) now sid = none := by
        simp [rGet, aget_adel_self]
      simp [get_session, hr']
    · have hr' : rGet (rSrem (zRem (rDel st sid) sid) now d.user_id sid) now sid = none := by
        simp [rGet, aget_adel_self]
      simp [invalidate_session, hr']

/-- Witness for C5 at a concrete store: both the absent branch and the
live branch. -/
theorem C5_invalidate_witness :
    (rGet witStore 0 "missing" = none ∧
      invalidate_session witStore 0 "missing" = .ok (false, witStore)) ∧
    (aget witStore.sessions "s1" = some (encodeSession witRecord, 60) ∧
      (0 : Int) < 60 ∧
      decodeSession (encodeSession witRecord) = some witRecord) ∧
    (∃ st', invalidate_session witStore 0 "s1" = .ok (true, st') ∧
      rGet st' 0 "s1" = none ∧ invalidate_session st' 0 "s1" = .ok (false, st')) := by
  refine ⟨⟨by decide, (C5_invalidate_contract witStore 0 "missing").1 (by decide)⟩,
    ⟨by decide, by decide, by decide⟩, ?_⟩
  obtain ⟨st', h1, _, _, h4, _, _, h7⟩ :=
    (C5_invalidate_contract witStore 0 "s1").2 (encodeSession witRecord) 60
      witRecord (by decide) (by decide) (by decide)
  exact ⟨st', h1, h4, h7⟩

/-- A store whose global expiry index holds one entry scoring exactly
`now`. -/
def statsIdxStore : Store := ⟨[], [], [("s1", 100)]⟩

/-- C1 counterexample: with one index entry whose score equals `now`,
`get_session_stats` reports it as active (`zcount(now, "+inf")` is
inclusive at the lower bound), while the claim — active = entries with
score strictly greater than `now` — predicts zero active and one
expired. -/
theorem C1_stats_counterexample :
    get_session_stats statsIdxStore 100 = ⟨1, 1, 0⟩ ∧
    (statsIdxStore.cleanup.filter (fun p => decide (100 < p.2))).length = 0 ∧
    statsIdxStore.cleanup.length = 1 := by
  decide

/-- C1 (amended): `get_session_stats` returns total = size of the global
expiry index, active = number of index entries with score greater than
OR EQUAL to `now`, and expired = total - active.  In the claim's
scenario, the stats right after creation are active 1 / expired 0; but
61 seconds later the per-session key has already expired natively, so
`cleanup_expired_sessions` invalidates nothing (returns 0, the store
unchanged) and stats still report total 1 (now as expired), not
total 0. -/
theorem C1_stats_amended (st : Store) (now : Int) (sid uid : String)
    (md : List (String × MetaValue)) (hnow : 0 ≤ now) :
    get_session_stats st now =
      ⟨st.cleanup.length,
       (st.cleanup.filter (fun p => decide (now ≤ p.2))).length,
       st.cleanup.length -
         (st.cleanup.filter (fun p => decide (now ≤ p.2))).length⟩ ∧
    get_session_stats (create_session Store.empty now sid uid 60 md).2 now =
      ⟨1, 1, 0⟩ ∧
    cleanup_expired_sessions (create_session Store.empty now sid uid 60 md).2
        (now + 61) =
      .ok (0, (create_session Store.empty now sid uid 60 md).2) ∧
    get_session_stats (create_session Store.empty now sid uid 60 md).2
        (now + 61) =
      ⟨1, 0, 1⟩ := by
  have hA : (0 : Int) ≤ now + 60 := by omega
  have hB : now + 60 ≤ now + 61 := by omega
  have hC : ¬(now + 61 < now + 60) := by omega
  have hD : ¬(now + 61 ≤ now + 60) := by omega
  have hE : now ≤ now + 60 := by omega
  have hst1 : (create_session Store.empty now sid uid 60 md).2 =
      { sessions :=
          [(sid, (encodeSession (create_session Store.empty now sid uid 60 md).1,
            now + 60))]
      , userSessions := [(uid, ([sid], some (now + 60)))]
      , cleanup := [(sid, now + 60)] } := by
    simp [create_session, rSetex, rSadd, rExpireSet, zAdd, aset, aget, Store.empty]
  refine ⟨rfl, ?_, ?_, ?_⟩
  · rw [hst1]
    simp [get_session_stats, zCard, zCountFrom, hE]
  · rw [hst1]
    simp [cleanup_expired_sessions, zRangeUpTo, cleanupGo, invalidate_session,
      rGet, aget, hA, hB, hC]
  · rw [hst1]
    simp [get_session_stats, zCard, zCountFrom, hD]

/-- Witness for C1's amended theorem at a concrete input. -/
theorem C1_stats_amended_witness :
    (0 : Int) ≤ 0 ∧
    get_session_stats (create_session Store.empty 0 "s1" "user_1" 60 []).2 61 =
      ⟨1, 0, 1⟩ :=
  ⟨by decide,
    (C1_stats_amended Store.empty 0 "s1" "user_1" [] (by decide)).2.2.2⟩

/-! ### Lemmas for the cleanup sweep -/

theorem rGet_congr (st st2 : Store) (now : Int) (sid : String)
    (h : aget st.sessions sid = aget st2.sessions sid) :
    rGet st now sid = rGet st2 now sid := by
  unfold rGet
  rw [h]

theorem rGet_some_elim (st : Store) (now : Int) (sid : String) (j : JDoc)
    (h : rGet st now sid = some j) :
    ∃ exp, aget st.sessions sid = some (j, exp) ∧ now < exp := by
  unfold rGet at h
  rcases hs : aget st.sessions sid with _ | ⟨j2, exp2⟩ <;> rw [hs] at h
  · simp at h
  · by_cases halive : now < exp2
    · simp only [halive, if_true] at h
      injection h with h2
      exact ⟨exp2, by rw [h2], halive⟩
    · simp [halive] at h

/-- One call of `invalidate_session`, for an id whose stored value (if
any) parses: it returns true exactly when the per-session entry is live,
touches no other session entry, and leaves the id unreadable. -/
theorem invalidate_session_cases (st : Store) (now : Int) (sid : String)
    (hdec : ∀ j exp, aget st.sessions sid = some (j, exp) →
      (decodeSession j).isSome = true) :
    ∃ st', invalidate_session st now sid = .ok ((rGet st now sid).isSome, st') ∧
      (∀ sid2, sid2 ≠ sid → aget st'.sessions sid2 = aget st.sessions sid2) ∧
      rGet st' now sid = none := by
  rcases hr : rGet st now sid with _ | j
  · refine ⟨st, ?_, fun _ _ => rfl, hr⟩
    simp [invalidate_session, hr]
  · obtain ⟨exp, hs, halive⟩ := rGet_some_elim st now sid j hr
    obtain ⟨d, hd2⟩ := Option.isSome_iff_exists.mp (hdec j exp hs)
    refine ⟨rSrem (zRem (rDel st sid) sid) now d.user_id sid, ?_, ?_, ?_⟩
    · simp [invalidate_session, hr, hd2]
    · intro sid2 hne
      simp [aget_adel_ne st.sessions sid sid2 (Ne.symm hne)]
    · simp [rGet, aget_adel_self]

/-- Loop invariant of the cleanup sweep over a duplicate-free id list:
the final count adds one per id whose per-session entry was live, every
processed id ends up unreadable, and unprocessed session entries are
untouched. -/
theorem cleanupGo_spec (now : Int) (ids : List String) :
    ∀ (acc : Nat) (st0 : Store), ids.Nodup →
      (∀ sid ∈ ids, ∀ j exp, aget st0.sessions sid = some (j, exp) →
        (decodeSession j).isSome = true) →
      ∃ st', cleanupGo now ids acc st0 =
          .ok (acc + (ids.filter (fun s => (rGet st0 now s).isSome)).length, st') ∧
        (∀ sid ∈ ids, rGet st' now sid = none) ∧
        (∀ sid, sid ∉ ids → aget st'.sessions sid = aget st0.sessions sid) := by
  induction ids with
  | nil =>
    intro acc st0 _ _
    exact ⟨st0, by simp [cleanupGo], by simp, fun _ _ => rfl⟩
  | cons sid rest ih =>
    intro acc st0 hnd hdec
    obtain ⟨hsid, hndr⟩ := List.nodup_cons.mp hnd
    obtain ⟨st1, hinv, hframe, hgone⟩ :=
      invalidate_session_cases st0 now sid (hdec sid (List.mem_cons_self _ _))
    have hframe_rest : ∀ s ∈ rest, aget st1.sessions s = aget st0.sessions s := by
      intro s hs
      exact hframe s (fun hc => hsid (hc ▸ hs))
    have hdec1 : ∀ s ∈ rest, ∀ j exp, aget st1.sessions s = some (j, exp) →
        (decodeSession j).isSome = true := by
      intro s hs j exp hg
      rw [hframe_rest s hs] at hg
      exact hdec s (List.mem_cons_of_mem _ hs) j exp hg
    have hrg_rest : ∀ s ∈ rest, rGet st1 now s = rGet st0 now s :=
      fun s hs => rGet_congr _ _ _ _ (hframe_rest s hs)
    have hfc : rest.filter (fun s => (rGet st1 now s).isSome) =
        rest.filter (fun s => (rGet st0 now s).isSome) :=
      List.filter_congr (fun s hs => by rw [hrg_rest s hs])
    cases hb : (rGet st0 now sid).isSome with
    | true =>
      obtain ⟨st', hgo, hnone, hfr⟩ := ih (acc + 1) st1 hndr hdec1
      have hstep : cleanupGo now (sid :: rest) acc st0 =
          cleanupGo now rest (acc + 1) st1 := by
        simp [cleanupGo, hinv, hb]
      have hcount : acc + 1 +
          (rest.filter (fun s => (rGet st0 now s).isSome)).length =
          acc + ((sid :: rest).filter (fun s => (rGet st0 now s).isSome)).length := by
        simp [List.filter_cons, hb]
        omega
      refine ⟨st', ?_, ?_, ?_⟩
      · rw [hstep, hgo, hfc, ← hcount]
      · intro s hs
        rcases List.mem_cons.mp hs with heq | hmem
        · subst heq
          rw [rGet_congr st' st1 now s (hfr s hsid)]
          exact hgone
        · exact hnone s hmem
      · intro s hs
        have hs1 : s ≠ sid := fun hc => hs (hc ▸ List.mem_cons_self _ _)
        have hs2 : s ∉ rest := fun hc => hs (List.mem_cons_of_mem _ hc)
        rw [hfr s hs2, hframe s hs1]
    | false =>
      obtain ⟨st', hgo, hnone, hfr⟩ := ih acc st1 hndr hdec1
      have hstep : cleanupGo now (sid :: rest) acc st0 =
          cleanupGo now rest acc st1 := by
        simp [cleanupGo, hinv, hb]
      have hcount : acc +
          (rest.filter (fun s => (rGet st0 now s).isSome)).length =
          acc + ((sid :: rest).filter (fun s => (rGet st0 now s).isSome)).length := by
        simp [List.filter_cons, hb]
      refine ⟨st', ?_, ?_, ?_⟩
      · rw [hstep, hgo, hfc, ← hcount]
      · intro s hs
        rcases List.mem_cons.mp hs with heq | hmem
        · subst heq
          rw [rGet_congr st' st1 now s (hfr s hsid)]
          exact hgone
        · exact hnone s hmem
      · intro s hs
        have hs1 : s ≠ sid := fun hc => hs (hc ▸ List.mem_cons_self _ _)
        have hs2 : s ∉ rest := fun hc => hs (List.mem_cons_of_mem _ hc)
        rw [hfr s hs2, hframe s hs1]

/-- C4: for a well-formed store whose index scores are (nonnegative)
expiry timestamps, `cleanup_expired_sessions` attempts invalidation of
exactly the ids whose index score is ≤ `now`: afterwards `get_session`
on every such id reports absent; the per-session entry of every id whose
index scores are all > `now` (or which has no index entry) is untouched;
and the returned count is the number of swept ids whose per-session
entry was still live (i.e. the number successfully invalidated). -/
theorem C4_cleanup_contract (st : Store) (now : Int) (hwf : WFStore st)
    (hpos : ∀ p ∈ st.cleanup, 0 ≤ p.2) :
    ∃ st', cleanup_expired_sessions st now =
        .ok (((zRangeUpTo st 0 now).filter
            (fun s => (rGet st now s).isSome)).length, st') ∧
      (∀ sid sc, aget st.cleanup sid = some sc → sc ≤ now →
        rGet st' now sid = none ∧ get_session st' now sid = .ok (none, st')) ∧
      (∀ sid, (∀ sc, aget st.cleanup sid = some sc → now < sc) →
        aget st'.sessions sid = aget st.sessions sid) := by
  obtain ⟨hndS, hndC, hdecAll⟩ := hwf
  have hndIds : (zRangeUpTo st 0 now).Nodup := by
    unfold zRangeUpTo
    exact List.Nodup.sublist ((List.filter_sublist _).map Prod.fst) hndC
  have hdecIds : ∀ s ∈ zRangeUpTo st 0 now, ∀ j exp,
      aget st.sessions s = some (j, exp) → (decodeSession j).isSome = true := by
    intro s _ j exp hg
    exact hdecAll (s, (j, exp)) (aget_mem _ _ _ hg)
  obtain ⟨st', hgo, hnone, hfr⟩ :=
    cleanupGo_spec now (zRangeUpTo st 0 now) 0 st hndIds hdecIds
  refine ⟨st', ?_, ?_, ?_⟩
  · rw [show cleanup_expired_sessions st now =
        cleanupGo now (zRangeUpTo st 0 now) 0 st from rfl, hgo]
    simp
  · intro sid sc hgetc hscnow
    have hmemc : (sid, sc) ∈ st.cleanup := aget_mem _ _ _ hgetc
    have hmemf : (sid, sc) ∈ st.cleanup.filter
        (fun p => decide (0 ≤ p.2) && decide (p.2 ≤ now)) := by
      refine List.mem_filter.mpr ⟨hmemc, ?_⟩
      have h0 : (0 : Int) ≤ sc := hpos (sid, sc) hmemc
      simp [h0, hscnow]
    have hmem : sid ∈ zRangeUpTo st 0 now := by
      unfold zRangeUpTo
      exact List.mem_map_of_mem Prod.fst hmemf
    have hrg := hnone sid hmem
    exact ⟨hrg, by simp [get_session, hrg]⟩
  · intro sid hbig
    refine hfr sid ?_
    intro hmem
    unfold zRangeUpTo at hmem
    obtain ⟨p, hpf, hp1⟩ := List.mem_map.mp hmem
    obtain ⟨hpc, hq⟩ := List.mem_filter.mp hpf
    have hag : aget st.cleanup p.1 = some p.2 :=
      mem_aget _ _ _ hndC (by rw [Prod.mk.eta]; exact hpc)
    rw [hp1] at hag
    have hlt := hbig p.2 hag
    simp at hq
    omega

/-- A store state in which the cleanup sweep actually invalidates: the
index entry for "s1" scores 60 while the per-session key is still live
until 200 (in the running system such states arise from sub-second
drift between the float index score and the whole-second key TTL, and
from crashes between the paired writes). -/
def cleanupWitStore : Store :=
  { sessions := [("s1", (encodeSession witRecord, 200))]
  , userSessions := [("u1", (["s1"], some 200))]
  , cleanup := [("s1", 60)] }

/-- Witness for C4 at a concrete store: at time 100 the sweep
invalidates "s1" (score 60 ≤ 100, entry live), returns 1, and a
subsequent read reports absent. -/
theorem C4_cleanup_witness :
    (WFStore cleanupWitStore ∧ ∀ p ∈ cleanupWitStore.cleanup, 0 ≤ p.2) ∧
    (∃ st', cleanup_expired_sessions cleanupWitStore 100 = .ok (1, st') ∧
      rGet st' 100 "s1" = none) := by
  refine ⟨⟨by decide, by decide⟩, ?_⟩
  obtain ⟨st', hgo, h2, _⟩ := C4_cleanup_contract cleanupWitStore 100
    (by decide) (by decide)
  have hcnt : ((zRangeUpTo cleanupWitStore 0 100).filter
      (fun s => (rGet cleanupWitStore 100 s).isSome)).length = 1 := by decide
  rw [hcnt] at hgo
  exact ⟨st', hgo, (h2 "s1" 60 (by decide) (by decide)).1⟩

/-! ### The is_active flag -/

/-- Every stored session value that parses has `is_active = true`. -/
def allActiveB (st : Store) : Bool :=
  st.sessions.all (fun p =>
    match decodeSession p.2.1 with
    | some d => d.is_active
    | none => true)

def AllActive (st : Store) : Prop := allActiveB st = true

instance (st : Store) : Decidable (AllActive st) := by
  unfold AllActive
  infer_instance

theorem AllActive_mem {st : Store} (h : AllActive st) {p : String × JDoc × Int}
    (hm : p ∈ st.sessions) {d : SessionData}
    (hd : decodeSession p.2.1 = some d) : d.is_active = true := by
  have := List.all_eq_true.mp h p hm
  rw [hd] at this
  exact this

theorem AllActive_intro {l : List (String × JDoc × Int)}
    (h : ∀ p ∈ l, ∀ d, decodeSession p.2.1 = some d → d.is_active = true)
    {st : Store} (hs : st.sessions = l) : AllActive st := by
  unfold AllActive allActiveB
  rw [hs]
  refine List.all_eq_true.mpr ?_
  intro p hp
  rcases hd : decodeSession p.2.1 with _ | d
  · rfl
  · exact h p hp d hd

/-- Characterization of a successful `get_session` call. -/
theorem get_session_ok_elim (st : Store) (now : Int) (sid : String)
    (r : Option SessionData) (st' : Store)
    (h : get_session st now sid = .ok (r, st')) :
    (r = none ∧ st' = st) ∨
    (∃ j exp d, aget st.sessions sid = some (j, exp) ∧ now < exp ∧
      decodeSession j = some d ∧ r = some { d with last_activity := now } ∧
      st' = rSetex st now sid (rTtl st now sid)
        (encodeSession { d with last_activity := now })) := by
  rcases hr : rGet st now sid with _ | j
  · left
    have hx : get_session st now sid = .ok (none, st) := by
      simp [get_session, hr]
    rw [hx] at h
    injection h with h2
    injection h2 with ha hb
    exact ⟨ha.symm, hb.symm⟩
  · rcases hd : decodeSession j with _ | d
    · have hx : get_session st now sid = .error () := by
        simp [get_session, hr, hd]
      rw [hx] at h
      simp at h
    · right
      obtain ⟨exp, hs, halive⟩ := rGet_some_elim st now sid j hr
      have hx : get_session st now sid =
          .ok (some { d with last_activity := now },
            rSetex st now sid (rTtl st now sid)
              (encodeSession { d with last_activity := now })) := by
        simp [get_session, hr, hd]
      rw [hx] at h
      injection h with h2
      injection h2 with ha hb
      exact ⟨j, exp, d, hs, halive, hd, ha.symm, hb.symm⟩

/-- Characterization of a completed `invalidate_session` call at the
level of the session keyspace: it deletes at most the one entry. -/
theorem invalidate_ok_sessions (st : Store) (now : Int) (sid : String)
    (b : Bool) (st' : Store)
    (h : invalidate_session st now sid = .ok (b, st')) :
    st'.sessions = st.sessions ∨ st'.sessions = adel st.sessions sid := by
  rcases hr : rGet st now sid with _ | j
  · left
    have hx : invalidate_session st now sid = .ok (false, st) := by
      simp [invalidate_session, hr]
    rw [hx] at h
    injection h with h2
    injection h2 with _ hb
    rw [← hb]
  · rcases hd : decodeSession j with _ | d
    · have hx : invalidate_session st now sid = .error () := by
        simp [invalidate_session, hr, hd]
      rw [hx] at h
      simp at h
    · right
      have hx : invalidate_session st now sid =
          .ok (true, rSrem (zRem (rDel st sid) sid) now d.user_id sid) := by
        simp [invalidate_session, hr, hd]
      rw [hx] at h
      injection h with h2
      injection h2 with _ hb
      rw [← hb]
      simp

theorem AllActive_create (st : Store) (now : Int) (sid uid : String)
    (ttl : Int) (md : List (String × MetaValue)) (h : AllActive st) :
    AllActive (create_session st now sid uid ttl md).2 := by
  have hsl : (create_session st now sid uid ttl md).2.sessions =
      aset st.sessions sid
        (encodeSession
          { user_id := uid, session_id := sid, created_at := now,
            expires_at := now + ttl, is_active := true, metadata := md,
            last_activity := now },
          now + ttl) := by
    simp [create_session]
  refine AllActive_intro ?_ hsl
  intro p hp d hd
  rcases mem_aset _ _ _ _ hp with heq | hmem
  · subst heq
    have hd' : decodeSession (encodeSession
        { user_id := uid, session_id := sid, created_at := now,
          expires_at := now + ttl, is_active := true, metadata := md,
          last_activity := now }) = some d := hd
    rw [decode_encode] at hd'
    injection hd' with hd2
    rw [← hd2]
  · exact AllActive_mem h hmem hd

theorem AllActive_get (st : Store) (now : Int) (sid : String)
    (r : Option SessionData) (st' : Store) (h : AllActive st)
    (hok : get_session st now sid = .ok (r, st')) : AllActive st' := by
  rcases get_session_ok_elim st now sid r st' hok with ⟨_, hst⟩ |
    ⟨j, exp, d, hs, _, hd, _, hst⟩
  · rw [hst]
    exact h
  · have hact : d.is_active = true := AllActive_mem h (aget_mem _ _ _ hs) hd
    have hsl : st'.sessions = aset st.sessions sid
        (encodeSession { d with last_activity := now },
          now + rTtl st now sid) := by
      rw [hst]
      simp [rSetex]
    refine AllActive_intro ?_ hsl
    intro p hp d2 hd2
    rcases mem_aset _ _ _ _ hp with heq | hmem
    · subst heq
      have hd2' : decodeSession
          (encodeSession { d with last_activity := now }) = some d2 := hd2
      rw [decode_encode] at hd2'
      injection hd2' with hd3
      rw [← hd3]
      exact hact
    · exact AllActive_mem h hmem hd2

theorem AllActive_invalidate (st : Store) (now : Int) (sid : String)
    (b : Bool) (st' : Store) (h : AllActive st)
    (hok : invalidate_session st now sid = .ok (b, st')) : AllActive st' := by
  rcases invalidate_ok_sessions st now sid b st' hok with hs | hs
  · exact AllActive_intro (fun p hp d hd => AllActive_mem h (hs ▸ hp) hd) rfl
  · refine AllActive_intro ?_ rfl
    intro p hp d hd
    rw [hs] at hp
    exact AllActive_mem h (mem_adel _ _ _ hp) hd

theorem AllActive_cleanupGo (now : Int) (ids : List String) :
    ∀ (acc : Nat) (st : Store) (n : Nat) (st' : Store), AllActive st →
      cleanupGo now ids acc st = .ok (n, st') → AllActive st' := by
  induction ids with
  | nil =>
    intro acc st n st' h hok
    unfold cleanupGo at hok
    injection hok with h2
    injection h2 with _ hb
    rw [← hb]
    exact h
  | cons sid rest ih =>
    intro acc st n st' h hok
    rcases hi : invalidate_session st now sid with _ | ⟨b, st1⟩
    · have hx : cleanupGo now (sid :: rest) acc st = .error () := by
        simp [cleanupGo, hi]
      rw [hx] at hok
      simp at hok
    · have h1 : AllActive st1 := AllActive_invalidate st now sid b st1 h hi
      cases b
      · have hx : cleanupGo now (sid :: rest) acc st =
            cleanupGo now rest acc st1 := by
          simp [cleanupGo, hi]
        rw [hx] at hok
        exact ih acc st1 n st' h1 hok
      · have hx : cleanupGo now (sid :: rest) acc st =
            cleanupGo now rest (acc + 1) st1 := by
          simp [cleanupGo, hi]
        rw [hx] at hok
        exact ih (acc + 1) st1 n st' h1 hok

theorem AllActive_cleanup (st : Store) (now : Int) (n : Nat) (st' : Store)
    (h : AllActive st)
    (hok : cleanup_expired_sessions st now = .ok (n, st')) : AllActive st' :=
  AllActive_cleanupGo now (zRangeUpTo st 0 now) 0 st n st' h hok

theorem AllActive_foldDel (ids : List String) :
    ∀ st : Store, AllActive st →
      AllActive (ids.foldl (fun s sid => zRem (rDel s sid) sid) st) := by
  induction ids with
  | nil =>
    intro st h
    exact h
  | cons sid rest ih =>
    intro st h
    rw [List.foldl_cons]
    have h1 : AllActive (zRem (rDel st sid) sid) := by
      refine AllActive_intro ?_ rfl
      intro p hp d hd
      have hp2 : p ∈ adel st.sessions sid := by
        simpa using hp
      exact AllActive_mem h (mem_adel _ _ _ hp2) hd
    exact ih _ h1

theorem AllActive_invalidate_user (st : Store) (now : Int) (uid : String)
    (h : AllActive st) : AllActive (invalidate_user_sessions st now uid).2 := by
  unfold invalidate_user_sessions
  by_cases he : (rSmembers st now uid).isEmpty
  · simp only [he, if_true]
    exact h
  · simp only [he, if_false]
    have h1 := AllActive_foldDel (rSmembers st now uid) st h
    exact AllActive_intro (fun p hp d hd => AllActive_mem h1 hp hd) rfl

theorem userSessionsGo_active (now : Int) (ids : List String) :
    ∀ (acc : List SessionData) (st : Store) (l : List SessionData) (st' : Store),
      userSessionsGo now ids acc st = .ok (l, st') →
      (∀ d ∈ acc, d.is_active = true) → ∀ d ∈ l, d.is_active = true := by
  induction ids with
  | nil =>
    intro acc st l st' h hacc d hd
    unfold userSessionsGo at h
    injection h with h2
    injection h2 with hl _
    rw [← hl] at hd
    exact hacc d (List.mem_reverse.mp hd)
  | cons sid rest ih =>
    intro acc st l st' h hacc
    rcases hg : get_session st now sid with _ | ⟨r, st1⟩
    · have hx : userSessionsGo now (sid :: rest) acc st = .error () := by
        simp [userSessionsGo, hg]
      rw [hx] at h
      simp at h
    · rcases r with _ | d2
      · have hx : userSessionsGo now (sid :: rest) acc st =
            userSessionsGo now rest acc st1 := by
          simp [userSessionsGo, hg]
        rw [hx] at h
        exact ih acc st1 l st' h hacc
      · by_cases hact : d2.is_active
        · have hx : userSessionsGo now (sid :: rest) acc st =
              userSessionsGo now rest (d2 :: acc) st1 := by
            simp [userSessionsGo, hg, hact]
          rw [hx] at h
          refine ih (d2 :: acc) st1 l st' h ?_
          intro d hd
          rcases List.mem_cons.mp hd with heq | hmem
          · rw [heq]
            exact hact
          · exact hacc d hmem
        · have hx : userSessionsGo now (sid :: rest) acc st =
              userSessionsGo now rest acc st1 := by
            simp [userSessionsGo, hg, hact]
          rw [hx] at h
          exact ih acc st1 l st' h hacc

/-- C10: no Session Manager operation writes a record with
`is_active = false`: starting from a store whose parsed records are all
active, create, get, invalidate, cleanup and invalidate-all-for-user
leave it so (invalidation and cleanup delete records rather than
flagging them); `get_session` rewrites a stored record preserving
whatever `is_active` value it had, so a stored inactive record is still
returned (with `last_activity` refreshed); and `get_user_sessions` is
the only operation filtering on the flag — every record it returns has
`is_active = true`. -/
theorem C10_no_inactive_write (st : Store) (now : Int) :
    (∀ sid uid ttl md, AllActive st →
      AllActive (create_session st now sid uid ttl md).2) ∧
    (∀ sid r st', AllActive st → get_session st now sid = .ok (r, st') →
      AllActive st') ∧
    (∀ sid b st', AllActive st → invalidate_session st now sid = .ok (b, st') →
      AllActive st') ∧
    (∀ n st', AllActive st → cleanup_expired_sessions st now = .ok (n, st') →
      AllActive st') ∧
    (∀ uid, AllActive st → AllActive (invalidate_user_sessions st now uid).2) ∧
    (∀ sid j exp d, aget st.sessions sid = some (j, exp) → now < exp →
      decodeSession j = some d →
      ∃ st', get_session st now sid =
          .ok (some { d with last_activity := now }, st') ∧
        ({ d with last_activity := now } : SessionData).is_active = d.is_active) ∧
    (∀ uid l st', get_user_sessions st now uid = .ok (l, st') →
      ∀ d ∈ l, d.is_active = true) := by
  refine ⟨?_, ?_, ?_, ?_, ?_, ?_, ?_⟩
  · intro sid uid ttl md h
    exact AllActive_create st now sid uid ttl md h
  · intro sid r st' h hok
    exact AllActive_get st now sid r st' h hok
  · intro sid b st' h hok
    exact AllActive_invalidate st now sid b st' h hok
  · intro n st' h hok
    exact AllActive_cleanup st now n st' h hok
  · intro uid h
    exact AllActive_invalidate_user st now uid h
  · intro sid j exp d hget halive hdec
    have hr : rGet st now sid = some j := by
      simp [rGet, hget, halive]
    exact ⟨rSetex st now sid (rTtl st now sid)
        (encodeSession { d with last_activity := now }),
      by simp [get_session, hr, hdec], rfl⟩
  · intro uid l st' hok
    exact userSessionsGo_active now (rSmembers st now uid) [] st l st' hok
      (by simp)

/-- A stored record whose `is_active` flag is false (only producible by
writing the store outside the manager — the manager itself never stores
one, as the main theorem shows). -/
def inactiveRecord : SessionData :=
  { user_id := "u9", session_id := "s9", created_at := 0, expires_at := 60,
    is_active := false, metadata := [], last_activity := 0 }

def inactiveStore : Store :=
  ⟨[("s9", (encodeSession inactiveRecord, 60))], [], []⟩

/-- Witness for C10 at concrete stores, including a read of a stored
inactive record. -/
theorem C10_no_inactive_write_witness :
    (AllActive witStore ∧
      AllActive (create_session witStore 0 "s2" "u1" 60 []).2) ∧
    (aget inactiveStore.sessions "s9" = some (encodeSession inactiveRecord, 60) ∧
      (0 : Int) < 60 ∧
      decodeSession (encodeSession inactiveRecord) = some inactiveRecord) ∧
    (∃ st', get_session inactiveStore 0 "s9" =
        .ok (some { inactiveRecord with last_activity := 0 }, st') ∧
      ({ inactiveRecord with last_activity := 0 } : SessionData).is_active =
        inactiveRecord.is_active) := by
  refine ⟨⟨by decide, (C10_no_inactive_write witStore 0).1 "s2" "u1" 60 [] (by decide)⟩,
    ⟨by decide, by decide, by decide⟩, ?_⟩
  exact (C10_no_inactive_write inactiveStore 0).2.2.2.2.2.1 "s9"
    (encodeSession inactiveRecord) 60 inactiveRecord (by decide) (by decide)
    (by decide)

/-- Witness for C6's amended theorem at concrete inputs. -/
theorem C6_stats_degrade_witness :
    client_get_session_stats (Except.error "boom") =
      StatsOutcome.errorDict "boom" ∧
    client_get_session_stats (Except.ok ⟨1, 2, 3⟩) = StatsOutcome.ok ⟨1, 2, 3⟩ :=
  ⟨(C6_stats_degrade_to_error_dict "boom" ⟨1, 2, 3⟩).1,
    (C6_stats_degrade_to_error_dict "boom" ⟨1, 2, 3⟩).2.2⟩
